import Mathlib

/-!
Shallow embedding of the employee-data streaming service
(`Real-life-Example/server.py`) and proofs of its specified properties.

The service has two parts:
* a sample-data generator (`_generate_sample_data`) that builds formatted
  employee text lines from random draws, and
* a server-streaming handler (`StreamLargeData`) that yields one frame per
  line, prints a progress message every 2500 records, and converts any
  exception raised during emission into an INTERNAL status on the call
  context.

Randomness is modelled by a draw source `g : Nat -> Draw`: the record for
id `i` is built from `g i`.  Each field of `Draw` ranges over exactly the
values its Python random primitive can return
(`random.choice` over a 6-element list = an index in `Fin 6`,
`random.randint a b` = `a + Fin (b - a + 1)`).

Python string operations used by the code and by the round-trip property
are embedded at the character-list level: decimal rendering (`str`),
zero-padding (`{:05d}`), thousands grouping (`{:,}`), and `str.split`.
-/

namespace GrpcDemo

/-! ## Decimal rendering and Python-style numeric formatting -/

/-- Decimal digits of `n`, least significant first (`Nat.digitChar` maps
`0..9` to `'0'..'9'`).  Reversing gives Python `str(n)` for `n : Nat`. -/
def natDigitsRev (n : Nat) : List Char :=
  if h : n < 10 then [Nat.digitChar n]
  else Nat.digitChar (n % 10) :: natDigitsRev (n / 10)
  decreasing_by exact Nat.div_lt_self (by omega) (by omega)

/-- Python `str(n)` for a nonnegative integer: standard decimal numeral. -/
def natStr (n : Nat) : String := ⟨(natDigitsRev n).reverse⟩

/-- Python format spec `{n:0wd}`: left-pad the decimal numeral with zeros
to width `w` (no truncation when already wider). -/
def padZ (w n : Nat) : String :=
  ⟨List.replicate (w - (natDigitsRev n).length) '0' ++ (natDigitsRev n).reverse⟩

/-- Insert a comma after every three characters, operating on a reversed
digit string (so commas land every three digits from the right). -/
def commaRev : List Char → List Char
  | a :: b :: c :: d :: rest => a :: b :: c :: ',' :: commaRev (d :: rest)
  | l => l

/-- Python format spec `{n:,}`: decimal numeral with thousands separators. -/
def commaFmt (n : Nat) : String := ⟨(commaRev (natDigitsRev n)).reverse⟩

/-! ## Parsing back (the round-trip direction of the spec) -/

/-- The ten decimal digit characters. -/
def digitChars : List Char := ['0', '1', '2', '3', '4', '5', '6', '7', '8', '9']

/-- Numeric value of a digit character. -/
def digitVal (c : Char) : Nat := c.toNat - 48

/-- Fold a digit string into a number, failing on a non-digit. -/
def digitsToNatAux (acc : Nat) : List Char → Option Nat
  | [] => some acc
  | c :: rest =>
    if c ∈ digitChars then digitsToNatAux (acc * 10 + digitVal c) rest else none

/-- Parse a nonempty decimal numeral (Python `int(s)` on digit strings). -/
def parseNat (s : String) : Option Nat :=
  match s.data with
  | [] => none
  | _ => digitsToNatAux 0 s.data

/-- Parse a formatted salary value back to the integer before formatting:
strip the leading dollar sign, drop the thousands separators, and read the
decimal numeral. -/
def parseSalary (s : String) : Option Nat :=
  match s.data with
  | '$' :: rest => parseNat ⟨rest.filter (fun c => c != ',')⟩
  | _ => none

/-! ## Python `str.split` with a multi-character separator -/

/-- Scanning worker for Python `s.split(sep)` with separator `c :: sep`:
at each position, if the separator starts here, close the current piece
and continue after the separator; otherwise move one character into the
accumulator. -/
def pySplitAux (c : Char) (sep : List Char) : List Char → List Char → List (List Char)
  | [], acc => [acc.reverse]
  | x :: s, acc =>
    if (c :: sep).isPrefixOf (x :: s) then
      acc.reverse :: pySplitAux c sep (s.drop sep.length) []
    else
      pySplitAux c sep s (x :: acc)
  termination_by s _ => s.length
  decreasing_by all_goals (simp [List.length_drop]; try omega)

/-- Python `s.split(sep)` for the nonempty separator `c :: sep`. -/
def pySplit (c : Char) (sep : List Char) (s : List Char) : List (List Char) :=
  pySplitAux c sep s []

/-- Split a line on the field delimiter, three characters long. -/
def splitFields (s : String) : List String :=
  (pySplit ' ' ['|', ' '] s.data).map (fun l => ⟨l⟩)

/-- Split a field on the label/value sub-delimiter, two characters long. -/
def splitKV (s : String) : List String :=
  (pySplit ':' [' '] s.data).map (fun l => ⟨l⟩)

/-! ## The random draws of one record -/

/-- One record's worth of random draws, each field ranging over exactly
the values its Python primitive can return:
`dept`/`pos` index `random.choice` over the 6-element lists,
`salary` encodes `random.randint 45000 150000` as `45000 + salary.val`,
`month` encodes `random.randint 1 12` as `1 + month.val`,
`day` encodes `random.randint 1 28` as `1 + day.val`. -/
structure Draw where
  dept : Fin 6
  pos : Fin 6
  salary : Fin 105001
  month : Fin 12
  day : Fin 28

/-- The fixed department list of `_generate_sample_data`. -/
def departmentNames : List String :=
  ["Engineering", "Marketing", "Sales", "HR", "Finance", "Operations"]

/-- The fixed position list of `_generate_sample_data`. -/
def positionNames : List String :=
  ["Manager", "Senior", "Junior", "Lead", "Director", "Analyst"]

/-- The department drawn by `random.choice(departments)` at index `j`. -/
def departments (j : Fin 6) : String := departmentNames.get j

/-- The position drawn by `random.choice(positions)` at index `j`. -/
def positions (j : Fin 6) : String := positionNames.get j

/-! ## The formatted employee line -/

/-- Chunk `ID: {i:05d}` of the employee f-string. -/
def fID (i : Nat) : String := "ID: " ++ padZ 5 i

/-- Chunk `Name: {position} {dept} Employee {i}` of the employee f-string. -/
def fName (i : Nat) (d : Draw) : String :=
  "Name: " ++ positions d.pos ++ " " ++ departments d.dept ++ " Employee " ++ natStr i

/-- Chunk `Email: employee{i}@company.com` of the employee f-string. -/
def fEmail (i : Nat) : String := "Email: employee" ++ natStr i ++ "@company.com"

/-- Chunk `Department: {dept}` of the employee f-string. -/
def fDept (d : Draw) : String := "Department: " ++ departments d.dept

/-- Chunk `Salary: ${salary:,}` of the employee f-string. -/
def fSalary (d : Draw) : String := "Salary: $" ++ commaFmt (45000 + d.salary.val)

/-- Chunk `Hire Date: 2020-{month:02d}-{day:02d}` of the employee f-string. -/
def fHireDate (d : Draw) : String :=
  "Hire Date: 2020-" ++ padZ 2 (1 + d.month.val) ++ "-" ++ padZ 2 (1 + d.day.val)

/-- The full formatted employee line `employee_data` for id `i` built from
draws `d`: the six chunks joined by the field delimiter, exactly as the
f-string of `_generate_sample_data` concatenates them. -/
def employeeLine (i : Nat) (d : Draw) : String :=
  fID i ++ " | " ++ fName i d ++ " | " ++ fEmail i ++ " | " ++ fDept d ++ " | " ++
    fSalary d ++ " | " ++ fHireDate d

/-! ## The generator and the service -/

/-- The generation loop `for i in range(1, N + 1)` with its bound as a
parameter: one formatted line per id `i = 1 .. N`, in order, built from
the draw source `g`. -/
def generateSampleDataN (N : Nat) (g : Nat → Draw) : List String :=
  (List.range' 1 N).map (fun i => employeeLine i (g i))

/-- `_generate_sample_data`: the loop runs `for i in range(1, 10001)`,
so the bound is fixed at 10000 records. -/
def generateSampleData (g : Nat → Draw) : List String :=
  generateSampleDataN 10000 g

/-- The service instance state: `self.employees`, set once in `__init__`. -/
structure Service where
  employees : List String
deriving DecidableEq

/-- `EmployeeDataService.__init__`: generate the sample data once and
store it as the instance's record set. -/
def mkService (g : Nat → Draw) : Service := ⟨generateSampleData g⟩

/-! ## The streaming handler -/

/-- Terminal status of one streaming call: OK completion, or the INTERNAL
code with the details message set by the except branch. -/
inductive StreamStatus where
  | ok : StreamStatus
  | internal : String → StreamStatus
deriving DecidableEq

/-- Observable outcome of one streaming call: the frames delivered in
order, the progress counts printed, and the terminal status. -/
structure StreamOut where
  frames : List String
  progress : List Nat
  status : StreamStatus
deriving DecidableEq

/-- Fault model for the transport writes behind `yield`: `w i = none`
means the write of record index `i` (0-based) succeeds; `w i = some msg`
means that write raises an exception with message `msg` into the
generator, so the frame is not delivered. -/
def noFail : Nat → Option String := fun _ => none

/-- The emission loop body of `StreamLargeData`: iterate the records with
`enumerate`, yield one frame per record, print a progress count when
`(i + 1) % 2500 == 0`, and propagate the first write exception (third
component) out of the loop. -/
def emitLoop (w : Nat → Option String) : List String → Nat → List String × List Nat × Option String
  | [], _ => ([], [], none)
  | e :: rest, i =>
    match w i with
    | some msg => ([], [], some msg)
    | none =>
      let r := emitLoop w rest (i + 1)
      (e :: r.1, (if (i + 1) % 2500 == 0 then [i + 1] else []) ++ r.2.1, r.2.2)

/-- The emission loop with the progress branch removed, used to state that
progress reporting is pure observability. -/
def emitLoopNoProgress (w : Nat → Option String) : List String → Nat → List String × Option String
  | [], _ => ([], none)
  | e :: rest, i =>
    match w i with
    | some msg => ([], some msg)
    | none =>
      let r := emitLoopNoProgress w rest (i + 1)
      (e :: r.1, r.2)

/-- `EmployeeDataService.StreamLargeData`: run the emission loop over
`self.employees` inside try/except; an exception escaping the loop is
caught and turned into `context.set_details` plus
`context.set_code(grpc.StatusCode.INTERNAL)`, after which the handler
returns normally.  The instance state is returned unchanged: the handler
never assigns to `self.employees`. -/
def StreamLargeData (svc : Service) (w : Nat → Option String) : StreamOut × Service :=
  let r := emitLoop w svc.employees 0
  (⟨r.1, r.2.1,
    match r.2.2 with
    | none => .ok
    | some msg => .internal ("Streaming error: " ++ msg)⟩, svc)

/-- The handler with the progress branch removed, for the frame-effect
property. -/
def StreamLargeDataNoProgress (svc : Service) (w : Nat → Option String) :
    (List String × StreamStatus) × Service :=
  let r := emitLoopNoProgress w svc.employees 0
  ((r.1,
    match r.2 with
    | none => .ok
    | some msg => .internal ("Streaming error: " ++ msg)), svc)

/-! ## Field extraction from a formatted line -/

/-- Value part of the `k`-th field of a line: split on the field
delimiter, take field `k`, split on the label/value sub-delimiter, and
take the value of a two-part field. -/
def fieldValue (s : String) (k : Nat) : Option String :=
  match (splitFields s)[k]? with
  | some f =>
    match splitKV f with
    | [_, v] => some v
    | _ => none
  | none => none

/-- Identifier embedded in a frame: the parsed value of field 0. -/
def frameId (s : String) : Option Nat := (fieldValue s 0).bind parseNat

/-- Raw (zero-padded) identifier string embedded in a frame. -/
def frameIdStr (s : String) : Option String := fieldValue s 0

/-- Name value embedded in a frame: field 1. -/
def frameName (s : String) : Option String := fieldValue s 1

/-- Department value embedded in a frame: field 3. -/
def frameDept (s : String) : Option String := fieldValue s 3

/-- Salary embedded in a frame: the value of field 4 parsed back to the
integer before formatting. -/
def frameSalary (s : String) : Option Nat := (fieldValue s 4).bind parseSalary

/-- Hire-date value embedded in a frame: field 5. -/
def frameDate (s : String) : Option String := fieldValue s 5

/-- Days in each month of 2020 (a leap year), used to state that the
generated hire dates are valid calendar dates. -/
def daysInMonth2020 (m : Nat) : Nat :=
  match m with
  | 1 => 31 | 2 => 29 | 3 => 31 | 4 => 30 | 5 => 31 | 6 => 30
  | 7 => 31 | 8 => 31 | 9 => 30 | 10 => 31 | 11 => 30 | 12 => 31
  | _ => 0

/-- Concrete failing write used to witness the failure-path theorem:
the write of record index 1 raises with message `boom`. -/
def wFailAt1 : Nat → Option String := fun i => if i = 1 then some "boom" else none

/-- A character is clean when it is neither the field-delimiter marker
nor the label/value marker, so it can never start or continue a spurious
delimiter occurrence. -/
def cleanChar (c : Char) : Prop := c ≠ '|' ∧ c ≠ ':'

/-! ## Lemmas: decimal digits and parsing -/

theorem digitChar_mem_digitChars {d : Nat} (h : d < 10) : Nat.digitChar d ∈ digitChars := by
  interval_cases d <;> decide

theorem digitVal_digitChar {d : Nat} (h : d < 10) : digitVal (Nat.digitChar d) = d := by
  interval_cases d <;> decide

theorem natDigitsRev_ne_nil (n : Nat) : natDigitsRev n ≠ [] := by
  unfold natDigitsRev
  split <;> simp

theorem mem_natDigitsRev {n : Nat} {c : Char} (h : c ∈ natDigitsRev n) : c ∈ digitChars := by
  induction n using natDigitsRev.induct with
  | case1 n hlt =>
    unfold natDigitsRev at h
    rw [dif_pos hlt] at h
    simp at h
    subst h
    exact digitChar_mem_digitChars hlt
  | case2 n hlt ih =>
    unfold natDigitsRev at h
    rw [dif_neg hlt] at h
    rcases List.mem_cons.mp h with h | h
    · subst h
      exact digitChar_mem_digitChars (Nat.mod_lt _ (by omega))
    · exact ih h

theorem digit_cleanChar {c : Char} (h : c ∈ digitChars) : cleanChar c := by
  fin_cases h <;> exact ⟨by decide, by decide⟩

theorem digit_ne_comma {c : Char} (h : c ∈ digitChars) : c ≠ ',' := by
  fin_cases h <;> decide

theorem digitsToNatAux_append (acc : Nat) (l1 l2 : List Char) :
    digitsToNatAux acc (l1 ++ l2) =
      (digitsToNatAux acc l1).bind (fun a => digitsToNatAux a l2) := by
  induction l1 generalizing acc with
  | nil => simp [digitsToNatAux]
  | cons c rest ih =>
    by_cases hc : c ∈ digitChars
    · simp [digitsToNatAux, hc, ih]
    · simp [digitsToNatAux, hc]

theorem digitsToNatAux_natDigitsRev (n : Nat) :
    ∀ acc, digitsToNatAux acc (natDigitsRev n).reverse =
      some (acc * 10 ^ (natDigitsRev n).length + n) := by
  induction n using natDigitsRev.induct with
  | case1 n hlt =>
    intro acc
    unfold natDigitsRev
    rw [dif_pos hlt]
    simp [digitsToNatAux, digitChar_mem_digitChars hlt, digitVal_digitChar hlt]
  | case2 n hlt ih =>
    intro acc
    have hn : ¬n < 10 := hlt
    unfold natDigitsRev
    rw [dif_neg hn]
    simp only [List.reverse_cons, List.length_cons]
    rw [digitsToNatAux_append, ih acc]
    have hmod : n % 10 < 10 := Nat.mod_lt _ (by omega)
    simp [digitsToNatAux, digitChar_mem_digitChars hmod, digitVal_digitChar hmod]
    rw [pow_succ]
    have hdm := Nat.div_add_mod n 10
    ring_nf
    omega

theorem parseNat_mk_of_ne_nil (l : List Char) (h : l ≠ []) :
    parseNat ⟨l⟩ = digitsToNatAux 0 l := by
  cases l with
  | nil => exact absurd rfl h
  | cons c t => rfl

theorem parseNat_natStr (n : Nat) : parseNat (natStr n) = some n := by
  rw [natStr, parseNat_mk_of_ne_nil _ (by simp [natDigitsRev_ne_nil])]
  rw [digitsToNatAux_natDigitsRev n 0]
  simp

theorem digitsToNatAux_replicate_zero (k : Nat) (l : List Char) :
    digitsToNatAux 0 (List.replicate k '0' ++ l) = digitsToNatAux 0 l := by
  have h0 : '0' ∈ digitChars := by decide
  have h1 : digitVal '0' = 0 := by decide
  induction k with
  | zero => simp
  | succ k ih => simpa [List.replicate_succ, digitsToNatAux, h0, h1] using ih

theorem parseNat_padZ (w n : Nat) : parseNat (padZ w n) = some n := by
  rw [padZ, parseNat_mk_of_ne_nil _ (by simp [natDigitsRev_ne_nil])]
  rw [digitsToNatAux_replicate_zero, digitsToNatAux_natDigitsRev n 0]
  simp

theorem mem_padZ {w n : Nat} {c : Char} (h : c ∈ (padZ w n).data) : c ∈ digitChars := by
  rw [padZ] at h
  rcases List.mem_append.mp h with h | h
  · rw [List.eq_of_mem_replicate h]
    decide
  · exact mem_natDigitsRev (List.mem_reverse.mp h)

theorem mem_natStr {n : Nat} {c : Char} (h : c ∈ (natStr n).data) : c ∈ digitChars :=
  mem_natDigitsRev (List.mem_reverse.mp h)

theorem mem_commaRev {l : List Char} {c : Char} (h : c ∈ commaRev l) : c ∈ l ∨ c = ',' := by
  induction l using commaRev.induct with
  | case1 a b x d rest ih =>
    rw [commaRev] at h
    simp only [List.mem_cons] at h ⊢
    rcases h with h | h | h | h | h
    · tauto
    · tauto
    · tauto
    · tauto
    · rcases ih h with h | h
      · simp only [List.mem_cons] at h
        tauto
      · tauto
  | case2 l hshape =>
    rw [commaRev.eq_def] at h
    split at h
    · rename_i a b x d rest
      exact (hshape a b x d rest rfl).elim
    · exact Or.inl h

theorem commaRev_filter (l : List Char) :
    (commaRev l).filter (fun c => c != ',') = l.filter (fun c => c != ',') := by
  induction l using commaRev.induct with
  | case1 a b x d rest ih =>
    rw [commaRev]
    simp only [List.filter_cons, ih]
    simp
  | case2 l hshape =>
    rw [commaRev.eq_def]
    split
    · rename_i a b x d rest
      exact (hshape a b x d rest rfl).elim
    · rfl

theorem filter_comma_of_digits {l : List Char} (h : ∀ c ∈ l, c ∈ digitChars) :
    l.filter (fun c => c != ',') = l := by
  apply List.filter_eq_self.mpr
  intro c hc
  exact bne_iff_ne.mpr (digit_ne_comma (h c hc))

theorem mem_commaFmt {n : Nat} {c : Char} (h : c ∈ (commaFmt n).data) : cleanChar c := by
  rw [commaFmt] at h
  rcases mem_commaRev (List.mem_reverse.mp h) with h | h
  · exact digit_cleanChar (mem_natDigitsRev h)
  · rw [h]
    exact ⟨by decide, by decide⟩

theorem parseSalary_commaFmt (n : Nat) :
    parseSalary ("$" ++ commaFmt n) = some n := by
  have hdata : ("$" ++ commaFmt n) = ⟨'$' :: (commaRev (natDigitsRev n)).reverse⟩ := by
    apply String.ext
    rw [String.data_append, commaFmt]
    rfl
  rw [hdata]
  show parseNat ⟨((commaRev (natDigitsRev n)).reverse).filter (fun c => c != ',')⟩ = some n
  rw [List.filter_reverse, commaRev_filter,
    filter_comma_of_digits (fun c hc => mem_natDigitsRev hc)]
  exact parseNat_natStr n

/-! ## Lemmas: splitting on the two delimiters

The scanning split recovers the pieces of a joined string as long as the
pieces cannot start a delimiter occurrence: for the label/value delimiter
it is enough that a piece avoids the colon, for the field delimiter that
it avoids the bar. -/

theorem splitKVAux_last (xs : List Char) (h : ':' ∉ xs) :
    ∀ acc, pySplitAux ':' [' '] xs acc = [acc.reverse ++ xs] := by
  induction xs with
  | nil => intro acc; simp [pySplitAux]
  | cons x t ih =>
    intro acc
    have hx : (':' == x) = false :=
      beq_eq_false_iff_ne.mpr (Ne.symm (fun he => h (by simp [he])))
    rw [pySplitAux]
    simp only [List.isPrefixOf, hx, Bool.false_and, Bool.false_eq_true, if_false]
    rw [ih (fun he => h (List.mem_cons_of_mem x he)) (x :: acc)]
    simp

theorem splitKVAux_append (xs rest : List Char) (h : ':' ∉ xs) :
    ∀ acc, pySplitAux ':' [' '] (xs ++ ':' :: ' ' :: rest) acc
      = (acc.reverse ++ xs) :: pySplitAux ':' [' '] rest [] := by
  induction xs with
  | nil =>
    intro acc
    rw [List.nil_append, pySplitAux]
    simp [List.isPrefixOf]
  | cons x t ih =>
    intro acc
    have hx : (':' == x) = false :=
      beq_eq_false_iff_ne.mpr (Ne.symm (fun he => h (by simp [he])))
    rw [List.cons_append, pySplitAux]
    simp only [List.isPrefixOf, hx, Bool.false_and, Bool.false_eq_true, if_false]
    rw [ih (fun he => h (List.mem_cons_of_mem x he)) (x :: acc)]
    simp

theorem pySplitKV_pair (label value : List Char) (hl : ':' ∉ label) (hv : ':' ∉ value) :
    pySplit ':' [' '] (label ++ ':' :: ' ' :: value) = [label, value] := by
  rw [pySplit, splitKVAux_append label value hl [], splitKVAux_last value hv []]
  simp

theorem splitFieldAux_last (xs : List Char) (h : '|' ∉ xs) :
    ∀ acc, pySplitAux ' ' ['|', ' '] xs acc = [acc.reverse ++ xs] := by
  induction xs with
  | nil => intro acc; simp [pySplitAux]
  | cons x t ih =>
    intro acc
    have hcond : ((' ' :: ['|', ' ']).isPrefixOf (x :: t)) = false := by
      cases t with
      | nil => simp [List.isPrefixOf]
      | cons y u =>
        have hy : ('|' == y) = false :=
          beq_eq_false_iff_ne.mpr (Ne.symm (fun he => h (by simp [he])))
        simp [List.isPrefixOf, hy]
    rw [pySplitAux]
    simp only [hcond, Bool.false_eq_true, if_false]
    rw [ih (fun he => h (List.mem_cons_of_mem x he)) (x :: acc)]
    simp

theorem splitFieldAux_append (xs rest : List Char) (h : '|' ∉ xs) :
    ∀ acc, pySplitAux ' ' ['|', ' '] (xs ++ ' ' :: '|' :: ' ' :: rest) acc
      = (acc.reverse ++ xs) :: pySplitAux ' ' ['|', ' '] rest [] := by
  induction xs with
  | nil =>
    intro acc
    rw [List.nil_append, pySplitAux]
    simp [List.isPrefixOf]
  | cons x t ih =>
    intro acc
    have hcond : ((' ' :: ['|', ' ']).isPrefixOf (x :: (t ++ ' ' :: '|' :: ' ' :: rest))) = false := by
      cases t with
      | nil => simp [List.isPrefixOf]
      | cons y u =>
        have hy : ('|' == y) = false :=
          beq_eq_false_iff_ne.mpr (Ne.symm (fun he => h (by simp [he])))
        simp [List.isPrefixOf, hy]
    rw [List.cons_append, pySplitAux]
    simp only [hcond, Bool.false_eq_true, if_false]
    rw [ih (fun he => h (List.mem_cons_of_mem x he)) (x :: acc)]
    simp

/-! ## Lemmas: the characters of each chunk are delimiter-free -/

theorem clean_departments (j : Fin 6) :
    '|' ∉ (departments j).data ∧ ':' ∉ (departments j).data := by
  fin_cases j <;> exact ⟨by decide, by decide⟩

theorem clean_positions (j : Fin 6) :
    '|' ∉ (positions j).data ∧ ':' ∉ (positions j).data := by
  fin_cases j <;> exact ⟨by decide, by decide⟩

theorem splitKV_fID (i : Nat) : splitKV (fID i) = ["ID", padZ 5 i] := by
  have hdata : (fID i).data = ['I', 'D'] ++ ':' :: ' ' :: (padZ 5 i).data := rfl
  rw [splitKV, hdata,
    pySplitKV_pair _ _ (by decide) (fun hc => absurd (mem_padZ hc) (by decide))]
  rfl

theorem splitKV_fName (i : Nat) (d : Draw) :
    splitKV (fName i d) =
      ["Name", positions d.pos ++ " " ++ departments d.dept ++ " Employee " ++ natStr i] := by
  have hdata : (fName i d).data = ['N', 'a', 'm', 'e'] ++ ':' :: ' ' ::
      (positions d.pos ++ " " ++ departments d.dept ++ " Employee " ++ natStr i).data := rfl
  have hv : ':' ∉ (positions d.pos ++ " " ++ departments d.dept ++ " Employee " ++ natStr i).data := by
    simp only [String.data_append, List.mem_append]
    rintro ((((h | h) | h) | h) | h)
    · exact (clean_positions d.pos).2 h
    · revert h; decide
    · exact (clean_departments d.dept).2 h
    · revert h; decide
    · exact absurd (mem_natStr h) (by decide)
  rw [splitKV, hdata, pySplitKV_pair _ _ (by decide) hv]
  rfl

theorem barFree_fID (i : Nat) : '|' ∉ (fID i).data := by
  rw [fID]
  simp only [String.data_append, List.mem_append]
  rintro (h | h)
  · revert h; decide
  · exact absurd (mem_padZ h) (by decide)

theorem barFree_fName (i : Nat) (d : Draw) : '|' ∉ (fName i d).data := by
  rw [fName]
  simp only [String.data_append, List.mem_append]
  rintro (((((h | h) | h) | h) | h) | h)
  · revert h; decide
  · exact (clean_positions d.pos).1 h
  · revert h; decide
  · exact (clean_departments d.dept).1 h
  · revert h; decide
  · exact absurd (mem_natStr h) (by decide)

theorem splitKV_fEmail (i : Nat) :
    splitKV (fEmail i) = ["Email", "employee" ++ natStr i ++ "@company.com"] := by
  have hdata : (fEmail i).data = ['E', 'm', 'a', 'i', 'l'] ++ ':' :: ' ' ::
      ("employee" ++ natStr i ++ "@company.com").data := rfl
  have hv : ':' ∉ ("employee" ++ natStr i ++ "@company.com").data := by
    simp only [String.data_append, List.mem_append]
    rintro ((h | h) | h)
    · revert h; decide
    · exact absurd (mem_natStr h) (by decide)
    · revert h; decide
  rw [splitKV, hdata, pySplitKV_pair _ _ (by decide) hv]
  rfl

theorem splitKV_fDept (d : Draw) :
    splitKV (fDept d) = ["Department", departments d.dept] := by
  have hdata : (fDept d).data = ['D', 'e', 'p', 'a', 'r', 't', 'm', 'e', 'n', 't'] ++
      ':' :: ' ' :: (departments d.dept).data := rfl
  rw [splitKV, hdata, pySplitKV_pair _ _ (by decide) (clean_departments d.dept).2]
  rfl

theorem splitKV_fSalary (d : Draw) :
    splitKV (fSalary d) = ["Salary", "$" ++ commaFmt (45000 + d.salary.val)] := by
  have hdata : (fSalary d).data = ['S', 'a', 'l', 'a', 'r', 'y'] ++ ':' :: ' ' ::
      ("$" ++ commaFmt (45000 + d.salary.val)).data := rfl
  have hv : ':' ∉ ("$" ++ commaFmt (45000 + d.salary.val)).data := by
    simp only [String.data_append, List.mem_append]
    rintro (h | h)
    · revert h; decide
    · exact (mem_commaFmt h).2 rfl
  rw [splitKV, hdata, pySplitKV_pair _ _ (by decide) hv]
  rfl

theorem splitKV_fHireDate (d : Draw) :
    splitKV (fHireDate d) =
      ["Hire Date", "2020-" ++ padZ 2 (1 + d.month.val) ++ "-" ++ padZ 2 (1 + d.day.val)] := by
  have hdata : (fHireDate d).data = ['H', 'i', 'r', 'e', ' ', 'D', 'a', 't', 'e'] ++
      ':' :: ' ' ::
      ("2020-" ++ padZ 2 (1 + d.month.val) ++ "-" ++ padZ 2 (1 + d.day.val)).data := rfl
  have hv : ':' ∉ ("2020-" ++ padZ 2 (1 + d.month.val) ++ "-" ++ padZ 2 (1 + d.day.val)).data := by
    simp only [String.data_append, List.mem_append]
    rintro (((h | h) | h) | h)
    · revert h; decide
    · exact absurd (mem_padZ h) (by decide)
    · revert h; decide
    · exact absurd (mem_padZ h) (by decide)
  rw [splitKV, hdata, pySplitKV_pair _ _ (by decide) hv]
  rfl

theorem barFree_fEmail (i : Nat) : '|' ∉ (fEmail i).data := by
  rw [fEmail]
  simp only [String.data_append, List.mem_append]
  rintro ((h | h) | h)
  · revert h; decide
  · exact absurd (mem_natStr h) (by decide)
  · revert h; decide

theorem barFree_fDept (d : Draw) : '|' ∉ (fDept d).data := by
  rw [fDept]
  simp only [String.data_append, List.mem_append]
  rintro (h | h)
  · revert h; decide
  · exact (clean_departments d.dept).1 h

theorem barFree_fSalary (d : Draw) : '|' ∉ (fSalary d).data := by
  rw [fSalary]
  simp only [String.data_append, List.mem_append]
  rintro (h | h)
  · revert h; decide
  · exact (mem_commaFmt h).1 rfl

theorem barFree_fHireDate (d : Draw) : '|' ∉ (fHireDate d).data := by
  rw [fHireDate]
  simp only [String.data_append, List.mem_append]
  rintro (((h | h) | h) | h)
  · revert h; decide
  · exact absurd (mem_padZ h) (by decide)
  · revert h; decide
  · exact absurd (mem_padZ h) (by decide)

/-! ## Lemmas: splitting the whole employee line -/

theorem splitFields_employeeLine (i : Nat) (d : Draw) :
    splitFields (employeeLine i d) =
      [fID i, fName i d, fEmail i, fDept d, fSalary d, fHireDate d] := by
  have hdata : (employeeLine i d).data =
      (fID i).data ++ ' ' :: '|' :: ' ' :: ((fName i d).data ++ ' ' :: '|' :: ' ' ::
        ((fEmail i).data ++ ' ' :: '|' :: ' ' :: ((fDept d).data ++ ' ' :: '|' :: ' ' ::
          ((fSalary d).data ++ ' ' :: '|' :: ' ' :: (fHireDate d).data)))) := by
    rw [employeeLine]
    simp [String.data_append, List.append_assoc]
  rw [splitFields, hdata, pySplit,
    splitFieldAux_append _ _ (barFree_fID i) [],
    splitFieldAux_append _ _ (barFree_fName i d) [],
    splitFieldAux_append _ _ (barFree_fEmail i) [],
    splitFieldAux_append _ _ (barFree_fDept d) [],
    splitFieldAux_append _ _ (barFree_fSalary d) [],
    splitFieldAux_last _ (barFree_fHireDate d) []]
  rfl

/-! ## Lemmas: extracting each field value from a generated line -/

theorem fieldValue_emp0 (i : Nat) (d : Draw) :
    fieldValue (employeeLine i d) 0 = some (padZ 5 i) := by
  simp [fieldValue, splitFields_employeeLine, splitKV_fID]

theorem fieldValue_emp1 (i : Nat) (d : Draw) :
    fieldValue (employeeLine i d) 1 =
      some (positions d.pos ++ " " ++ departments d.dept ++ " Employee " ++ natStr i) := by
  simp [fieldValue, splitFields_employeeLine, splitKV_fName]

theorem fieldValue_emp2 (i : Nat) (d : Draw) :
    fieldValue (employeeLine i d) 2 =
      some ("employee" ++ natStr i ++ "@company.com") := by
  simp [fieldValue, splitFields_employeeLine, splitKV_fEmail]

theorem fieldValue_emp3 (i : Nat) (d : Draw) :
    fieldValue (employeeLine i d) 3 = some (departments d.dept) := by
  simp [fieldValue, splitFields_employeeLine, splitKV_fDept]

theorem fieldValue_emp4 (i : Nat) (d : Draw) :
    fieldValue (employeeLine i d) 4 =
      some ("$" ++ commaFmt (45000 + d.salary.val)) := by
  simp [fieldValue, splitFields_employeeLine, splitKV_fSalary]

theorem fieldValue_emp5 (i : Nat) (d : Draw) :
    fieldValue (employeeLine i d) 5 =
      some ("2020-" ++ padZ 2 (1 + d.month.val) ++ "-" ++ padZ 2 (1 + d.day.val)) := by
  simp [fieldValue, splitFields_employeeLine, splitKV_fHireDate]

theorem frameId_employeeLine (i : Nat) (d : Draw) :
    frameId (employeeLine i d) = some i := by
  rw [frameId, fieldValue_emp0]
  exact parseNat_padZ 5 i

theorem frameSalary_employeeLine (i : Nat) (d : Draw) :
    frameSalary (employeeLine i d) = some (45000 + d.salary.val) := by
  rw [frameSalary, fieldValue_emp4]
  exact parseSalary_commaFmt (45000 + d.salary.val)

theorem frameIdStr_employeeLine (i : Nat) (d : Draw) :
    frameIdStr (employeeLine i d) = some (padZ 5 i) := fieldValue_emp0 i d

theorem frameName_employeeLine (i : Nat) (d : Draw) :
    frameName (employeeLine i d) =
      some (positions d.pos ++ " " ++ departments d.dept ++ " Employee " ++ natStr i) :=
  fieldValue_emp1 i d

theorem frameDept_employeeLine (i : Nat) (d : Draw) :
    frameDept (employeeLine i d) = some (departments d.dept) := fieldValue_emp3 i d

theorem frameDate_employeeLine (i : Nat) (d : Draw) :
    frameDate (employeeLine i d) =
      some ("2020-" ++ padZ 2 (1 + d.month.val) ++ "-" ++ padZ 2 (1 + d.day.val)) :=
  fieldValue_emp5 i d

/-! ## Lemmas: the emission loop -/

theorem emitLoop_noFail (l : List String) :
    ∀ i, (emitLoop noFail l i).1 = l ∧ (emitLoop noFail l i).2.2 = none := by
  induction l with
  | nil => intro i; simp [emitLoop]
  | cons e rest ih =>
    intro i
    simp [emitLoop, noFail, (ih (i + 1)).1, (ih (i + 1)).2]

theorem emitLoop_fail (w : Nat → Option String) (msg : String) :
    ∀ (l : List String) (i k : Nat), (∀ j, j < k → w (i + j) = none) →
      w (i + k) = some msg → k < l.length →
      (emitLoop w l i).1 = l.take k ∧ (emitLoop w l i).2.2 = some msg := by
  intro l
  induction l with
  | nil =>
    intro i k h1 h2 hk
    simp at hk
  | cons e rest ih =>
    intro i k h1 h2 hk
    cases k with
    | zero =>
      have h0 : w i = some msg := by simpa using h2
      simp [emitLoop, h0]
    | succ k =>
      have h0 : w i = none := by simpa using h1 0 (Nat.succ_pos k)
      have hsh1 : ∀ j, j < k → w (i + 1 + j) = none := by
        intro j hj
        have := h1 (j + 1) (by omega)
        rw [show i + (j + 1) = i + 1 + j by omega] at this
        exact this
      have hsh2 : w (i + 1 + k) = some msg := by
        rw [show i + 1 + k = i + (k + 1) by omega]
        exact h2
      have hlen : k < rest.length := by simpa using hk
      have hrec := ih (i + 1) k hsh1 hsh2 hlen
      simp [emitLoop, h0, hrec.1, hrec.2]

theorem emitLoop_noProgress_eq (w : Nat → Option String) :
    ∀ (l : List String) (i : Nat),
      (emitLoop w l i).1 = (emitLoopNoProgress w l i).1 ∧
      (emitLoop w l i).2.2 = (emitLoopNoProgress w l i).2 := by
  intro l
  induction l with
  | nil => intro i; simp [emitLoop, emitLoopNoProgress]
  | cons e rest ih =>
    intro i
    cases hw : w i with
    | some msg => simp [emitLoop, emitLoopNoProgress, hw]
    | none =>
      simp [emitLoop, emitLoopNoProgress, hw, (ih (i + 1)).1, (ih (i + 1)).2]

theorem emitLoop_progress_mod (w : Nat → Option String) :
    ∀ (l : List String) (i p : Nat), p ∈ (emitLoop w l i).2.1 → p % 2500 = 0 := by
  intro l
  induction l with
  | nil =>
    intro i p h
    simp [emitLoop] at h
  | cons e rest ih =>
    intro i p h
    cases hw : w i with
    | some msg =>
      rw [emitLoop] at h
      simp [hw] at h
    | none =>
      rw [emitLoop] at h
      simp only [hw] at h
      rcases List.mem_append.mp h with h | h
      · split at h
        · rename_i hcond
          simp at h
          rw [h]
          exact beq_iff_eq.mp hcond
        · simp at h
      · exact ih (i + 1) p h

/-! ## The claims -/

/-- C1: for every record appended by the generator, splitting the
formatted line on the field delimiter and each field on the label/value
sub-delimiter recovers the id, the department, and the salary as generated:
the department value equals the drawn department string, the id value
parses back to `i`, and the salary value parses back to the exact drawn
integer. -/
theorem claim1_roundTrip (i : Nat) (d : Draw) :
    (splitFields (employeeLine i d)).map splitKV =
      [["ID", padZ 5 i],
       ["Name", positions d.pos ++ " " ++ departments d.dept ++ " Employee " ++ natStr i],
       ["Email", "employee" ++ natStr i ++ "@company.com"],
       ["Department", departments d.dept],
       ["Salary", "$" ++ commaFmt (45000 + d.salary.val)],
       ["Hire Date", "2020-" ++ padZ 2 (1 + d.month.val) ++ "-" ++ padZ 2 (1 + d.day.val)]] ∧
    parseNat (padZ 5 i) = some i ∧
    parseSalary ("$" ++ commaFmt (45000 + d.salary.val)) = some (45000 + d.salary.val) := by
  refine ⟨?_, parseNat_padZ 5 i, parseSalary_commaFmt _⟩
  rw [splitFields_employeeLine]
  simp [splitKV_fID, splitKV_fName, splitKV_fEmail, splitKV_fDept, splitKV_fSalary,
    splitKV_fHireDate]

/-- C2: one call to StreamLargeData on a freshly constructed service with
the default configuration yields exactly 10000 frames whose embedded
identifiers are 1..10000 in order, and the call completes with the OK
status. -/
theorem claim2_defaultStream (g : Nat → Draw) :
    (StreamLargeData (mkService g) noFail).1.status = .ok ∧
    (StreamLargeData (mkService g) noFail).1.frames.length = 10000 ∧
    (StreamLargeData (mkService g) noFail).1.frames.map frameId =
      (List.range' 1 10000).map some := by
  have hf : ∀ l : List String, (emitLoop noFail l 0).1 = l :=
    fun l => (emitLoop_noFail l 0).1
  have hx : ∀ l : List String, (emitLoop noFail l 0).2.2 = none :=
    fun l => (emitLoop_noFail l 0).2
  refine ⟨by simp [StreamLargeData, hx], ?_, ?_⟩
  · simp [StreamLargeData, hf, mkService, generateSampleData, generateSampleDataN]
  · have hframes : (StreamLargeData (mkService g) noFail).1.frames =
        (List.range' 1 10000).map (fun i => employeeLine i (g i)) := by
      simp [StreamLargeData, hf, mkService, generateSampleData, generateSampleDataN]
    rw [hframes, List.map_map]
    exact List.map_congr_left (fun i _ => frameId_employeeLine i (g i))

/-- C3: the generation loop with bound N produces exactly N records whose
embedded identifiers are 1..N in strictly increasing sequential order,
each displayed zero-padded; the code instantiates the loop at N = 10000. -/
theorem claim3_generator (N : Nat) (g : Nat → Draw) :
    generateSampleData g = generateSampleDataN 10000 g ∧
    (generateSampleDataN N g).length = N ∧
    (generateSampleDataN N g).map frameId = (List.range' 1 N).map some ∧
    (generateSampleDataN N g).map frameIdStr =
      (List.range' 1 N).map (fun i => some (padZ 5 i)) := by
  refine ⟨rfl, by simp [generateSampleDataN], ?_, ?_⟩
  · rw [generateSampleDataN, List.map_map]
    exact List.map_congr_left (fun i _ => frameId_employeeLine i (g i))
  · rw [generateSampleDataN, List.map_map]
    exact List.map_congr_left (fun i _ => frameIdStr_employeeLine i (g i))

/-- C4: every generated record carries a salary in the inclusive range
45000..150000 and a department and position drawn from their fixed
6-element lists. -/
theorem claim4_ranges (N : Nat) (g : Nat → Draw) :
    (generateSampleDataN N g).map frameSalary =
      (List.range' 1 N).map (fun i => some (45000 + (g i).salary.val)) ∧
    (generateSampleDataN N g).map frameDept =
      (List.range' 1 N).map (fun i => some (departments (g i).dept)) ∧
    (generateSampleDataN N g).map frameName =
      (List.range' 1 N).map (fun i =>
        some (positions (g i).pos ++ " " ++ departments (g i).dept ++
          " Employee " ++ natStr i)) ∧
    (∀ d : Draw, 45000 ≤ 45000 + d.salary.val ∧ 45000 + d.salary.val ≤ 150000) ∧
    (∀ d : Draw, departments d.dept ∈ departmentNames ∧ positions d.pos ∈ positionNames) ∧
    departmentNames.length = 6 ∧ positionNames.length = 6 := by
  refine ⟨?_, ?_, ?_, ?_, ?_, rfl, rfl⟩
  · rw [generateSampleDataN, List.map_map]
    exact List.map_congr_left (fun i _ => frameSalary_employeeLine i (g i))
  · rw [generateSampleDataN, List.map_map]
    exact List.map_congr_left (fun i _ => frameDept_employeeLine i (g i))
  · rw [generateSampleDataN, List.map_map]
    exact List.map_congr_left (fun i _ => frameName_employeeLine i (g i))
  · intro d
    have hs := d.salary.isLt
    omega
  · intro d
    exact ⟨List.get_mem departmentNames d.dept.val d.dept.isLt,
      List.get_mem positionNames d.pos.val d.pos.isLt⟩

/-- C5: every generated record's hire date has the form 2020-MM-DD with MM
in 1..12 and DD in 1..28, so DD never exceeds the day count of any month
of 2020 and no invalid calendar date occurs. -/
theorem claim5_hireDate (N : Nat) (g : Nat → Draw) :
    (generateSampleDataN N g).map frameDate =
      (List.range' 1 N).map (fun i =>
        some ("2020-" ++ padZ 2 (1 + (g i).month.val) ++ "-" ++
          padZ 2 (1 + (g i).day.val))) ∧
    ∀ d : Draw, 1 ≤ 1 + d.month.val ∧ 1 + d.month.val ≤ 12 ∧
      1 ≤ 1 + d.day.val ∧ 1 + d.day.val ≤ 28 ∧
      1 + d.day.val ≤ daysInMonth2020 (1 + d.month.val) := by
  constructor
  · rw [generateSampleDataN, List.map_map]
    exact List.map_congr_left (fun i _ => frameDate_employeeLine i (g i))
  · intro d
    have hm := d.month.isLt
    have hd := d.day.isLt
    have h28 : 28 ≤ daysInMonth2020 (1 + d.month.val) := by
      obtain ⟨m, hm2⟩ := d.month
      show 28 ≤ daysInMonth2020 (1 + m)
      interval_cases m <;> decide
    refine ⟨by omega, by omega, by omega, by omega, by omega⟩

/-- C6: two calls to StreamLargeData against the same service instance,
the second over the state returned by the first, emit identical frame
sequences equal to the record set stored at construction; the instance
state is never regenerated or mutated between calls. -/
theorem claim6_twoCalls (svc : Service) :
    (StreamLargeData ((StreamLargeData svc noFail).2) noFail).1.frames =
      (StreamLargeData svc noFail).1.frames ∧
    (StreamLargeData svc noFail).1.frames = svc.employees ∧
    (StreamLargeData svc noFail).2 = svc := by
  refine ⟨rfl, ?_, rfl⟩
  simp [StreamLargeData, (emitLoop_noFail svc.employees 0).1]

/-- C7: if the write of frame k fails during a StreamLargeData call after
all earlier writes succeeded, the iteration is aborted with exactly the
frames before k delivered, and the terminal status is the internal-error
kind carrying the descriptive message. -/
theorem claim7_failure (employees : List String) (w : Nat → Option String) (k : Nat)
    (msg : String) (h1 : ∀ j, j < k → w j = none) (h2 : w k = some msg)
    (hk : k < employees.length) :
    (StreamLargeData ⟨employees⟩ w).1.frames = employees.take k ∧
    (StreamLargeData ⟨employees⟩ w).1.status = .internal ("Streaming error: " ++ msg) := by
  have h := emitLoop_fail w msg employees 0 k (by simpa using h1) (by simpa using h2) hk
  exact ⟨by simp [StreamLargeData, h.1], by simp [StreamLargeData, h.2]⟩

/-- C7 witness: with three records and a write failure injected at record
index 1, the call delivers exactly the first frame and ends with the
internal-error status carrying the message. -/
theorem claim7_failure_witness :
    (StreamLargeData ⟨["a", "b", "c"]⟩ wFailAt1).1.frames = ["a"] ∧
    (StreamLargeData ⟨["a", "b", "c"]⟩ wFailAt1).1.status =
      .internal ("Streaming error: boom") := by
  have h := claim7_failure ["a", "b", "c"] wFailAt1 1 "boom"
    (by intro j hj; interval_cases j; rfl) rfl (by decide)
  simpa using h

/-- C8: the progress reporting every 2500 records is pure observability:
the frames, the terminal status, and the service state of a call are
identical to those of the handler with the progress branch removed, and
every reported progress count is a multiple of 2500. -/
theorem claim8_progressPure (svc : Service) (w : Nat → Option String) :
    (StreamLargeData svc w).1.frames = (StreamLargeDataNoProgress svc w).1.1 ∧
    (StreamLargeData svc w).1.status = (StreamLargeDataNoProgress svc w).1.2 ∧
    (StreamLargeData svc w).2 = (StreamLargeDataNoProgress svc w).2 ∧
    (StreamLargeData svc w).1.progress.all (fun p => p % 2500 == 0) = true := by
  have h := emitLoop_noProgress_eq w svc.employees 0
  refine ⟨by simp [StreamLargeData, StreamLargeDataNoProgress, h.1],
    by simp [StreamLargeData, StreamLargeDataNoProgress, h.2], rfl, ?_⟩
  apply List.all_eq_true.mpr
  intro p hp
  exact beq_iff_eq.mpr (emitLoop_progress_mod w svc.employees 0 p (by simpa using hp))

/-- C9: every generated line consists of exactly six delimiter-separated
fields labelled ID, Name, Email, Department, Salary, Hire Date, each
label separated from its value by the sub-delimiter, and the Email field
carries employee{i}@company.com even though the data model does not list
an email attribute. -/
theorem claim9_shape (i : Nat) (d : Draw) :
    (splitFields (employeeLine i d)).length = 6 ∧
    (splitFields (employeeLine i d)).map (fun f => (splitKV f).headD "") =
      ["ID", "Name", "Email", "Department", "Salary", "Hire Date"] ∧
    (splitFields (employeeLine i d)).map (fun f => (splitKV f).length) =
      [2, 2, 2, 2, 2, 2] ∧
    fieldValue (employeeLine i d) 2 = some ("employee" ++ natStr i ++ "@company.com") := by
  refine ⟨?_, ?_, ?_, fieldValue_emp2 i d⟩ <;>
    simp [splitFields_employeeLine, splitKV_fID, splitKV_fName, splitKV_fEmail,
      splitKV_fDept, splitKV_fSalary, splitKV_fHireDate]

/-- C10: StreamLargeData never propagates an exception: every call ends
either in the OK status or in the INTERNAL status whose details carry the
streaming-error message, and the handler returns normally in both cases. -/
theorem claim10_noThrow (svc : Service) (w : Nat → Option String) :
    (StreamLargeData svc w).1.status = .ok ∨
      ∃ m, (StreamLargeData svc w).1.status = .internal ("Streaming error: " ++ m) := by
  cases h : (emitLoop w svc.employees 0).2.2 with
  | none => exact Or.inl (by simp [StreamLargeData, h])
  | some m => exact Or.inr ⟨m, by simp [StreamLargeData, h]⟩

end GrpcDemo
